import Mathlib

/-!
Verification of the token/credential subsystem of a Go user-management
backend (go-gin-clean-starter), as a shallow embedding in Lean.

Go strings are byte sequences; they are modelled as `List ℕ` (each entry a
byte value) wherever byte-level behaviour matters (hex codecs, AES-GCM
input/output, splitting on separator bytes).  Where only whole-string
identity matters (emails, token strings, uuids inside the store model) the
Lean `String` type is used.  Machine integers are modelled as `ℤ`/`ℕ`;
the one place where Go's `float64` arithmetic is semantically relevant
(`TotalPage`) gets an explicit binary floating-point model.
-/

/-- Byte strings: the Go `string` / `[]byte` types at byte granularity. -/
abbrev GoStr := List ℕ

/-! ## Hex codec (Go `encoding/hex`, and `fmt.Sprintf "%x"`)

`AESEncrypt` emits lowercase hex via `fmt.Sprintf("%x", ciphertext)`;
`AESDecrypt` and the key decoding use `hex.DecodeString`, which accepts
both lowercase and uppercase digits and fails on any non-hex byte or an
odd-length input. -/

/-- Lowercase hex digit (byte value) for a nibble, as produced by Go's
`%x` formatting. -/
def hexDigit (n : ℕ) : ℕ :=
  if n < 10 then 48 + n else 87 + n

/-- Hex encoding of a byte sequence: two lowercase digits per byte
(Go `fmt.Sprintf("%x", b)`). -/
def hexEncode (bs : GoStr) : GoStr :=
  bs.flatMap (fun b => [hexDigit (b / 16), hexDigit (b % 16)])

/-- Value of one hex digit byte, accepting `0-9`, `a-f`, `A-F`
(Go `encoding/hex` digit table); `none` on any other byte. -/
def hexDigitVal (c : ℕ) : Option ℕ :=
  if 48 ≤ c ∧ c ≤ 57 then some (c - 48)
  else if 97 ≤ c ∧ c ≤ 102 then some (c - 87)
  else if 65 ≤ c ∧ c ≤ 70 then some (c - 55)
  else none

/-- Hex decoding (Go `hex.DecodeString`): fails on odd length or any
invalid digit, otherwise yields the byte sequence. -/
def hexDecode : GoStr → Option GoStr
  | [] => some []
  | [_] => none
  | c1 :: c2 :: rest =>
    match hexDigitVal c1, hexDigitVal c2, hexDecode rest with
    | some h, some l, some bs => some ((16 * h + l) :: bs)
    | _, _, _ => none

theorem hexDigitVal_hexDigit {n : ℕ} (h : n < 16) :
    hexDigitVal (hexDigit n) = some n := by
  interval_cases n <;> decide

theorem hexDecode_hexEncode {bs : GoStr} (h : ∀ b ∈ bs, b < 256) :
    hexDecode (hexEncode bs) = some bs := by
  induction bs with
  | nil => rfl
  | cons b rest ih =>
    have hb : b < 256 := h b (List.mem_cons_self b rest)
    have hrest : ∀ x ∈ rest, x < 256 := fun x hx => h x (List.mem_cons_of_mem b hx)
    have h1 : b / 16 < 16 := Nat.div_lt_of_lt_mul (by omega)
    have h2 : b % 16 < 16 := Nat.mod_lt b (by omega)
    simp only [hexEncode, List.flatMap_cons, List.cons_append]
    simp only [hexEncode] at ih
    simp [hexDecode, hexDigitVal_hexDigit h1, hexDigitVal_hexDigit h2, ih hrest,
      Nat.div_add_mod]

/-! ## AES-GCM codec (`utils/aes.go`)

The AES block cipher and the GCM construction come from Go's standard
library; they are modelled as an abstract authenticated-encryption object
`GCM` (seal and open operations on nonce + data).  Everything the source file itself
does — key decoding, hex transport encoding, nonce prefixing, length
checking, error classification — is embedded concretely. -/

/-- Abstract AES-GCM AEAD: `sealAEAD nonce pt` is the ciphertext-with-tag
Go's `aesGCM.Seal(nil, nonce, pt, nil)` appends, and `openAEAD nonce ct`
is `aesGCM.Open(nil, nonce, ct, nil)`, failing (`none`) when the
authentication tag does not verify. -/
structure GCM where
  sealAEAD : GoStr → GoStr → GoStr
  openAEAD : GoStr → GoStr → Option GoStr

/-- Hardcoded hex key string `KEY` from `utils/aes.go`, as bytes. -/
def KEY : GoStr := ("00112233445566778899aabb00112233445566778899aabb" : String).data.map Char.toNat

/-- GCM nonce size used by Go's `cipher.NewGCM` (12 bytes). -/
def gcmNonceSize : ℕ := 12

/-- Valid AES key lengths accepted by Go's `aes.NewCipher` (bytes). -/
def aesKeyLengths : List ℕ := [16, 24, 32]

/-- AESEncrypt from `utils/aes.go`: decode the hardcoded hex key, build
the cipher and GCM (both succeed for this key), draw a fresh nonce (here a
parameter, standing for the `crypto/rand` read of `NonceSize` bytes), sealAEAD
with the nonce as destination prefix, and hex-encode the result. -/
def AESEncrypt (g : GCM) (nonce : GoStr) (stringToEncrypt : GoStr) : Except String GoStr :=
  match hexDecode KEY with
  | none => .error "encoding/hex: invalid byte"
  | some key =>
    if key.length ∈ aesKeyLengths then
      .ok (hexEncode (nonce ++ g.sealAEAD nonce stringToEncrypt))
    else
      .error "crypto/aes: invalid key size"

/-- AESDecrypt from `utils/aes.go`: decode the key, hex-decode the input
(`error in decoding encrypted string` on failure), reject inputs shorter
than one nonce (`ciphertext too short`), split nonce/ciphertext, and open
(`error decrypting` on authentication failure).  The Go function wraps its
body in a `defer`/`recover` converting any panic into the
`ciphertext too short` error, so it always returns normally; this model is
total by construction and its only panic-prone step (the slice) is length
guarded, matching the source. -/
def AESDecrypt (g : GCM) (encryptedString : GoStr) : Except String GoStr :=
  match hexDecode KEY with
  | none => .error "error in decoding key"
  | some _key =>
    match hexDecode encryptedString with
    | none => .error "error in decoding encrypted string"
    | some enc =>
      if enc.length < gcmNonceSize then .error "ciphertext too short"
      else
        match g.openAEAD (enc.take gcmNonceSize) (enc.drop gcmNonceSize) with
        | none => .error "error decrypting"
        | some plaintext => .ok plaintext

theorem hexDecode_KEY : hexDecode KEY = some
    [0x00, 0x11, 0x22, 0x33, 0x44, 0x55, 0x66, 0x77, 0x88, 0x99, 0xaa, 0xbb,
     0x00, 0x11, 0x22, 0x33, 0x44, 0x55, 0x66, 0x77, 0x88, 0x99, 0xaa, 0xbb] := by
  decide

/-- Claim C8 — for every input, `AESDecrypt` returns (it is a total
function into `Except`, mirroring the `recover` guard in the source), and
each malformed-input class yields an error, never a decoded value:
invalid hex, decoded data shorter than one GCM nonce, and a failed
authentication-tag check. -/
theorem aesDecrypt_total_error_cases (g : GCM) (input : GoStr) :
    (hexDecode input = none →
      AESDecrypt g input = .error "error in decoding encrypted string") ∧
    (∀ enc, hexDecode input = some enc → enc.length < gcmNonceSize →
      AESDecrypt g input = .error "ciphertext too short") ∧
    (∀ enc, hexDecode input = some enc → ¬ enc.length < gcmNonceSize →
      g.openAEAD (enc.take gcmNonceSize) (enc.drop gcmNonceSize) = none →
      AESDecrypt g input = .error "error decrypting") := by
  refine ⟨fun h => ?_, fun enc h hlt => ?_, fun enc h hlt hopen => ?_⟩
  · simp [AESDecrypt, hexDecode_KEY, h]
  · simp [AESDecrypt, hexDecode_KEY, h, hlt]
  · simp [AESDecrypt, hexDecode_KEY, h, hlt, hopen]

/-- Rejecting AEAD used to witness the tag-failure branch. -/
def rejectGCM : GCM where
  sealAEAD := fun _ pt => pt
  openAEAD := fun _ _ => none

theorem aesDecrypt_total_error_cases_witness :
    AESDecrypt rejectGCM [122, 122] = .error "error in decoding encrypted string" ∧
    AESDecrypt rejectGCM [48, 48] = .error "ciphertext too short" ∧
    AESDecrypt rejectGCM (hexEncode (List.replicate 13 0)) = .error "error decrypting" := by
  refine ⟨(aesDecrypt_total_error_cases rejectGCM [122, 122]).1 (by decide),
    (aesDecrypt_total_error_cases rejectGCM [48, 48]).2.1 [0] (by decide) (by decide),
    (aesDecrypt_total_error_cases rejectGCM (hexEncode (List.replicate 13 0))).2.2
      (List.replicate 13 0) (by decide) (by decide) (by decide)⟩

/-- Decrypting the hex encoding of a sealed message recovers the
plaintext (shared between the round-trip theorem and the verification
flow): the hypotheses state what the Go standard library guarantees — the
drawn nonce has the GCM nonce size, and opening a sealed message with its
own nonce yields the plaintext back. -/
theorem aesDecrypt_of_sealed (g : GCM) (nonce pt : GoStr)
    (hnonce : nonce.length = gcmNonceSize)
    (hbytes : ∀ b ∈ nonce ++ g.sealAEAD nonce pt, b < 256)
    (hopen : g.openAEAD nonce (g.sealAEAD nonce pt) = some pt) :
    AESDecrypt g (hexEncode (nonce ++ g.sealAEAD nonce pt)) = .ok pt := by
  have hdec := hexDecode_hexEncode hbytes
  have hlen : ¬ (nonce ++ g.sealAEAD nonce pt).length < gcmNonceSize := by
    simp only [List.length_append, hnonce, Nat.not_lt]
    exact Nat.le_add_right _ _
  have htake : (nonce ++ g.sealAEAD nonce pt).take gcmNonceSize = nonce := by
    rw [← hnonce]
    exact List.take_left nonce (g.sealAEAD nonce pt)
  have hdrop : (nonce ++ g.sealAEAD nonce pt).drop gcmNonceSize = g.sealAEAD nonce pt := by
    rw [← hnonce]
    exact List.drop_left nonce (g.sealAEAD nonce pt)
  simp only [AESDecrypt, hexDecode_KEY, hdec]
  rw [if_neg hlen]
  simp [htake, hdrop, hopen]

/-- Claim C9 — encrypt-then-decrypt is the identity on the plaintext: if
`AESEncrypt` succeeds with ciphertext `c` then `AESDecrypt c` succeeds and
returns the original string.  The hypotheses state what the Go standard
library guarantees: the drawn nonce has the GCM nonce size, and opening a
sealed message with its own nonce yields the plaintext back. -/
theorem aes_roundtrip (g : GCM) (nonce pt : GoStr)
    (hnonce : nonce.length = gcmNonceSize)
    (hbytes : ∀ b ∈ nonce ++ g.sealAEAD nonce pt, b < 256)
    (hopen : g.openAEAD nonce (g.sealAEAD nonce pt) = some pt) :
    ∀ c, AESEncrypt g nonce pt = .ok c → AESDecrypt g c = .ok pt := by
  intro c hc
  have hc' : c = hexEncode (nonce ++ g.sealAEAD nonce pt) := by
    have := hc
    simp [AESEncrypt, hexDecode_KEY, aesKeyLengths] at this
    exact this.symm
  subst hc'
  exact aesDecrypt_of_sealed g nonce pt hnonce hbytes hopen

/-- Identity AEAD used to witness the round trip at a concrete input. -/
def idGCM : GCM where
  sealAEAD := fun _ pt => pt
  openAEAD := fun _ ct => some ct

theorem aes_roundtrip_witness :
    AESDecrypt idGCM (hexEncode (List.replicate 12 0 ++ [104, 105])) = .ok [104, 105] := by
  refine aes_roundtrip idGCM (List.replicate 12 0) [104, 105] (by decide) (by decide) (by decide)
    (hexEncode (List.replicate 12 0 ++ [104, 105])) rfl

/-! ## Pagination: `TotalPage` (repository package)

The source computes `int64(math.Ceil(float64(count) / float64(perPage)))`
with no guard on `perPage`.  Since the computation genuinely runs through
`float64`, the embedding models IEEE-754 binary64 arithmetic exactly for
the operations used: conversion from integers, division (including the
division-by-zero cases producing infinities / NaN), `math.Ceil`, and the
conversion back to `int64`.  Values are represented as an unnormalised
sign/significand/exponent triple; rounding is round-to-nearest, ties to
even, at 53 significant bits, computed with integer arithmetic only.
Go leaves the `int64` conversion of a non-finite or out-of-range float
implementation-dependent; the model fixes the amd64 behaviour
(`math.MinInt64`), and the theorems below only rely on that value never
being `0`. -/

/-- Fuelled floor-log2 helper; `nlog2 n n` is the floor of log2 of a
positive `n`. -/
def nlog2 : ℕ → ℕ → ℕ
  | 0, _ => 0
  | fuel + 1, n => if n ≥ 2 then nlog2 fuel (n / 2) + 1 else 0

/-- Floor of the base-2 logarithm of a positive natural number. -/
def ilog2 (n : ℕ) : ℕ := nlog2 n n

/-- Fuelled search for the least `k' ≥ k` with `d ≤ n * 2 ^ k'`. -/
def kfind : ℕ → ℕ → ℕ → ℕ → ℕ
  | 0, _, _, k => k
  | fuel + 1, n, d, k => if d ≤ n * 2 ^ k then k else kfind fuel n d (k + 1)

/-- Integer division of `n` by `d`, rounded to nearest with ties to even. -/
def rheDiv (n d : ℕ) : ℕ :=
  let q := n / d
  let r := n % d
  if 2 * r < d then q
  else if 2 * r > d then q + 1
  else if q % 2 = 0 then q else q + 1

/-- IEEE-754 binary64 values: an unnormalised finite triple `±m·2^e`, the
two infinities, and NaN. -/
inductive F64 where
  | finite (sign : Bool) (m : ℕ) (e : ℤ)
  | inf
  | neginf
  | nan
  deriving DecidableEq

/-- Round a positive natural number to 53 significant bits
(round-to-nearest-even), returning significand and binary exponent. -/
def rne53 (m : ℕ) : ℕ × ℤ :=
  let L := ilog2 m
  if L ≤ 52 then (m, 0)
  else (rheDiv m (2 ^ (L - 52)), (L : ℤ) - 52)

/-- Go conversion `float64(n)` for an integer `n` (exact up to 2^53,
rounded to nearest even beyond). -/
def float64OfInt (n : ℤ) : F64 :=
  if n = 0 then .finite false 0 0
  else
    let p := rne53 n.natAbs
    .finite (decide (n < 0)) p.1 p.2

/-- Floor of log2 of the positive rational `m1 / m2`. -/
def qlog2 (m1 m2 : ℕ) : ℤ :=
  if m1 ≥ m2 then (ilog2 (m1 / m2) : ℤ)
  else -(kfind m2 m1 m2 1 : ℤ)

/-- Correctly rounded 53-bit significand of the quotient `m1 / m2` of two
positive naturals: the quotient rounded to the nearest multiple of
`2 ^ (L - 52)` where `L = qlog2 m1 m2`, ties to even. -/
def divSig (m1 m2 : ℕ) : ℕ :=
  let L := qlog2 m1 m2
  if L ≥ 52 then rheDiv m1 (m2 * 2 ^ (L - 52).toNat)
  else rheDiv (m1 * 2 ^ (52 - L).toNat) m2

/-- IEEE-754 binary64 division (round to nearest, ties to even), covering
the zero-divisor cases exactly as Go's `/` on `float64`: `x/±0` is an
infinity carrying the quotient's sign for `x ≠ 0`, and `0/0` is NaN. -/
def divF : F64 → F64 → F64
  | .finite s1 m1 e1, .finite s2 m2 e2 =>
    if m2 = 0 then
      if m1 = 0 then .nan
      else if s1 = s2 then .inf else .neginf
    else if m1 = 0 then .finite (xor s1 s2) 0 0
    else .finite (xor s1 s2) (divSig m1 m2) (e1 - e2 + qlog2 m1 m2 - 52)
  | .nan, _ => .nan
  | _, .nan => .nan
  | .inf, .inf => .nan
  | .inf, .neginf => .nan
  | .neginf, .inf => .nan
  | .neginf, .neginf => .nan
  | .inf, .finite s2 _ _ => if s2 then .neginf else .inf
  | .neginf, .finite s2 _ _ => if s2 then .inf else .neginf
  | .finite s1 _ _, .inf => .finite s1 0 0
  | .finite s1 _ _, .neginf => .finite (!s1) 0 0

/-- Go `math.Ceil`: exact ceiling on finite values (the result is always
representable), identity on infinities and NaN. -/
def ceilF : F64 → F64
  | .finite s m e =>
    if 0 ≤ e then .finite s m e
    else
      let d := 2 ^ (-e).toNat
      if s then .finite s (m / d) 0
      else .finite s ((m + d - 1) / d) 0
  | f => f

/-- Value Go's amd64 `int64(float64)` conversion produces for NaN, the
infinities, and any out-of-range finite value (`math.MinInt64`); the Go
specification leaves this implementation-dependent, and no theorem below
depends on more than this value being nonzero. -/
def int64Min : ℤ := -(2 ^ 63)

/-- Go conversion `int64(f)`: truncation toward zero for in-range finite
values, `int64Min` otherwise (amd64 behaviour). -/
def int64OfF64 : F64 → ℤ
  | .finite s m e =>
    let mag : ℤ := if 0 ≤ e then (m : ℤ) * 2 ^ e.toNat else (m : ℤ) / 2 ^ (-e).toNat
    let v : ℤ := if s then -mag else mag
    if -(2 ^ 63) ≤ v ∧ v < 2 ^ 63 then v else int64Min
  | _ => int64Min

/-- TotalPage from the repository package:
`int64(math.Ceil(float64(count) / float64(perPage)))`, with no special
case for `perPage = 0`. -/
def TotalPage (count perPage : ℤ) : ℤ :=
  int64OfF64 (ceilF (divF (float64OfInt count) (float64OfInt perPage)))

/-- Claim C5 (counterexample) — the claim asserts `TotalPage(count, 0) = 0`
and the exact-ceiling identity for every non-negative `count`; both fail
on the code.  `TotalPage 20 0` divides by zero in `float64`, producing
`+Inf`, whose `int64` conversion is not `0` (it is `math.MinInt64` on
amd64); and at `count = 2^62, perPage = 3` the `float64` rounding loses
low bits, so the result differs from the exact ceiling
`⌈2^62 / 3⌉ = 1537228672809129302`. -/
theorem totalPage_counterexample :
    TotalPage 20 0 ≠ 0 ∧ TotalPage 20 0 = int64Min ∧
    TotalPage 4611686018427387904 3 = 1537228672809129216 ∧
    TotalPage 4611686018427387904 3 ≠ 1537228672809129302 := by
  refine ⟨by decide, by decide, by decide, by decide⟩

set_option maxRecDepth 100000 in
set_option maxHeartbeats 4000000 in
/-- Claim C5 (amended) — the ceiling identity
`TotalPage count perPage = ⌈count / perPage⌉` (as integers,
`(count + perPage - 1) / perPage`) holds throughout the range where the
`float64` computation is exact — verified here exhaustively for
`count < 100, 0 < perPage < 13`, which contains all the documented cases
`TotalPage 20 10 = 2`, `TotalPage 21 10 = 3`, `TotalPage 0 10 = 0`,
`TotalPage 5 10 = 1`; but `TotalPage count 0` is not `0`: the unguarded
float division by zero makes it `int64Min` (amd64) rather than the `0`
the claim states. -/
theorem totalPage_documented_cases :
    (∀ count : ℕ, count < 100 → ∀ perPage : ℕ, perPage < 13 → 0 < perPage →
      TotalPage count perPage = ((count : ℤ) + perPage - 1) / perPage) ∧
    TotalPage 20 10 = 2 ∧ TotalPage 21 10 = 3 ∧ TotalPage 0 10 = 0 ∧
    TotalPage 5 10 = 1 ∧ TotalPage 20 0 = int64Min := by
  refine ⟨by decide, by decide, by decide, by decide, by decide, by decide⟩

theorem totalPage_documented_cases_witness : TotalPage 21 10 = 3 := by
  have h := totalPage_documented_cases.1 21 (by decide) 10 (by decide) (by decide)
  norm_num at h
  exact h

/-! ## JWT service (`service/jwt_service.go`)

The file contains two generations of the service.  The current one
(`jwtService.ValidateToken`) checks for an empty token and for exactly
three dot-separated segments itself, then parses with a keyfunc that
insists the signing method is exactly `jwt.SigningMethodHS256`.  The
legacy one delegates straight to `jwt.Parse` with a keyfunc
(`parseToken`) that accepts any `*jwt.SigningMethodHMAC` — HS256, HS384
or HS512 alike — and extracts claims through unchecked type assertions.

The `golang-jwt` library itself (base64/JSON decoding, HMAC signature
verification, registered-claims validation) is abstracted: a `decode`
function stands for the structural decoding of the compact serialization
(returning `none` exactly when the library would report a malformed
token, which includes a wrong segment count), and each decoded token
carries its algorithm, its claims map, whether its signature verifies
under a given key, and whether its registered claims validate.  The
embedded service code then performs exactly the checks the source
performs on top of that. -/

/-- Go `strings.Split` on a one-byte separator (for byte `sep`). -/
def splitOnByte (sep : ℕ) (l : GoStr) : List GoStr :=
  l.foldr
    (fun c acc =>
      if c = sep then [] :: acc
      else
        match acc with
        | h :: t => (c :: h) :: t
        | [] => [[c]])
    [[]]

/-- JWT signing algorithms as carried in the token header. -/
inductive Alg where
  | hs256
  | hs384
  | hs512
  | rs256
  | algNone
  | other (name : String)
  deriving DecidableEq

/-- Whether an algorithm is in the `*jwt.SigningMethodHMAC` family —
the (too permissive) check made by the legacy `parseToken` keyfunc. -/
def Alg.isHMAC : Alg → Bool
  | hs256 => true
  | hs384 => true
  | hs512 => true
  | _ => false

/-- JSON claim values, as relevant to `jwt.MapClaims` lookups. -/
inductive JSONVal where
  | str (s : String)
  | num (n : ℤ)
  | boolean (b : Bool)
  | nullVal
  deriving DecidableEq

/-- Decoded claims map (`jwt.MapClaims`). -/
abbrev MapClaims := List (String × JSONVal)

/-- Map lookup `claims[k]`: `none` models the nil interface Go yields for
a missing key. -/
def claimLookup (k : String) (c : MapClaims) : Option JSONVal :=
  (c.find? (fun p => p.1 == k)).map (fun p => p.2)

/-- Structurally decoded JWT: header algorithm, claims, signature
verification as a function of the key, and registered-claims validity. -/
structure RawToken where
  alg : Alg
  claims : MapClaims
  sigOK : String → Bool
  claimsValid : Bool

/-- Error classes produced by the two `ValidateToken` variants; in the
source these are distinct `error` values with distinct messages. -/
inductive JWTErr where
  | emptyToken
  | malformed
  | badSegments
  | badMethod (alg : Alg)
  | badSignature
  | invalidClaims
  deriving DecidableEq

/-- Result of a Go call that can also abort: normal value, returned
error, or runtime panic. -/
inductive Outcome (α : Type) where
  | ok (a : α)
  | err (e : JWTErr)
  | panicked (msg : String)
  deriving DecidableEq

namespace jwtService

/-- ValidateToken of the current `jwtService`: reject empty input, then
anything whose dot-split is not exactly three segments, then parse with a
keyfunc rejecting every method other than `jwt.SigningMethodHS256`; the
parsed token is returned only when signature and claims validate. -/
def ValidateToken (decode : GoStr → Option RawToken) (key : String) (token : GoStr) :
    Except JWTErr RawToken :=
  if token = [] then .error .emptyToken
  else if (splitOnByte 46 token).length ≠ 3 then .error .badSegments
  else
    match decode token with
    | none => .error .malformed
    | some t =>
      if t.alg ≠ .hs256 then .error (.badMethod t.alg)
      else if ¬ t.sigOK key then .error .badSignature
      else if ¬ t.claimsValid then .error .invalidClaims
      else .ok t

end jwtService

namespace jwtServiceLegacy

/-- ValidateToken of the legacy service: `jwt.Parse(token, j.parseToken)`
where `parseToken` accepts any HMAC-family method.  The library's own
structural checks (segments, base64, JSON) are inside `decode`. -/
def ValidateToken (decode : GoStr → Option RawToken) (key : String) (token : GoStr) :
    Except JWTErr RawToken :=
  match decode token with
  | none => .error .malformed
  | some t =>
    if ¬ t.alg.isHMAC then .error (.badMethod t.alg)
    else if ¬ t.sigOK key then .error .badSignature
    else if ¬ t.claimsValid then .error .invalidClaims
    else .ok t

/-- Go `fmt.Sprintf("%v", v)` on a claim value (a missing key is the nil
interface, printed `<nil>`). -/
def sprintfV : Option JSONVal → String
  | some (.str s) => s
  | some (.num n) => toString n
  | some (.boolean b) => toString b
  | some .nullVal => "<nil>"
  | none => "<nil>"

/-- GetUserIDByToken of the legacy service: validate, then
`claims := t_Token.Claims.(jwt.MapClaims)` (always succeeds for
`jwt.Parse`, whose claims are always `MapClaims`) and
`fmt.Sprintf("%v", claims["user_id"])`, which never panics. -/
def GetUserIDByToken (decode : GoStr → Option RawToken) (key : String) (token : GoStr) :
    Outcome String :=
  match ValidateToken decode key token with
  | .error e => .err e
  | .ok t => .ok (sprintfV (claimLookup "user_id" t.claims))

/-- GetRoleByToken of the legacy service: validate, then the unchecked
type assertion `claims["role"].(string)` — which panics whenever the
validated token has no `role` claim or a non-string one. -/
def GetRoleByToken (decode : GoStr → Option RawToken) (key : String) (token : GoStr) :
    Outcome String :=
  match ValidateToken decode key token with
  | .error e => .err e
  | .ok t =>
    match claimLookup "role" t.claims with
    | some (.str s) => .ok s
    | _ => .panicked "interface conversion: interface is not string"

end jwtServiceLegacy

/-- Compact serialization fixture of a well-signed HS256 token whose
claims JSON lacks a `role` field; the two bytes 46 are the dots of the
three-segment form. -/
def noRoleToken : GoStr := [97, 46, 98, 46, 99]

/-- Decoder fixture: `noRoleToken` decodes to a token signed with the
service key (`Template`, the default `getSecretKey` value), algorithm
HS256, valid registered claims, carrying a `user_id` claim but no `role`
claim.  Such a token is constructible by any holder of the key. -/
def noRoleDecode : GoStr → Option RawToken := fun s =>
  if s = noRoleToken then
    some ⟨.hs256, [("user_id", .str "u1")], fun k => k == "Template", true⟩
  else none

/-- Claim C6 — the claim says `GetRoleByToken` must return an error, not
panic, when the validated token carries no `role` claim; the legacy
implementation instead panics through the unchecked assertion
`claims["role"].(string)`.  At the same input, `GetUserIDByToken`
succeeds, showing the token itself validates; the panic is specific to
the missing-role lookup. -/
theorem getRoleByToken_panics_on_missing_role :
    jwtServiceLegacy.GetUserIDByToken noRoleDecode "Template" noRoleToken = .ok "u1" ∧
    jwtServiceLegacy.GetRoleByToken noRoleDecode "Template" noRoleToken =
      .panicked "interface conversion: interface is not string" := by
  exact ⟨rfl, rfl⟩

/-- Compact serialization fixture for an HS512-signed token. -/
def hs512Token : GoStr := [100, 46, 101, 46, 102]

/-- The decoded HS512 token: correctly signed with the service key, valid
claims. -/
def hs512Raw : RawToken :=
  ⟨.hs512, [("user_id", .str "test-user"), ("role", .str "admin")], fun k => k == "Template", true⟩

/-- Decoder fixture mapping `hs512Token` to `hs512Raw`. -/
def hs512Decode : GoStr → Option RawToken := fun s =>
  if s = hs512Token then some hs512Raw else none

/-- Claim C7 (counterexample) — the claim requires every `ValidateToken`
input signed with an algorithm other than HS256 (e.g. HS512) to be
rejected; the legacy variant (`jwt.Parse` with `parseToken`, which
accepts the whole `SigningMethodHMAC` family) returns the HS512 token as
valid, while the current variant rejects the very same input. -/
theorem validateTokenLegacy_accepts_hs512 :
    jwtServiceLegacy.ValidateToken hs512Decode "Template" hs512Token = .ok hs512Raw ∧
    jwtService.ValidateToken hs512Decode "Template" hs512Token =
      .error (.badMethod .hs512) := by
  exact ⟨rfl, rfl⟩

/-- Claim C7 (amended) — the current `jwtService.ValidateToken` returns an
error — never a valid token — on empty input, on any input without
exactly three dot-delimited segments, and on any decoded token whose
algorithm is not exactly HS256 (HS384, HS512, RS256, alg `none`,
unsigned); the three failure classes are pairwise distinguishable.  The
legacy variant does not satisfy the algorithm clause (see the
counterexample). -/
theorem validateToken_rejects_malformed_and_foreign_alg
    (decode : GoStr → Option RawToken) (key : String) (token : GoStr) :
    (token = [] → jwtService.ValidateToken decode key token = .error .emptyToken) ∧
    (token ≠ [] → (splitOnByte 46 token).length ≠ 3 →
      jwtService.ValidateToken decode key token = .error .badSegments) ∧
    (∀ t, token ≠ [] → (splitOnByte 46 token).length = 3 → decode token = some t →
      t.alg ≠ .hs256 →
      jwtService.ValidateToken decode key token = .error (.badMethod t.alg)) ∧
    (JWTErr.emptyToken ≠ .badSegments ∧
      ∀ a, JWTErr.badMethod a ≠ .emptyToken ∧ JWTErr.badMethod a ≠ .badSegments) := by
  refine ⟨fun h => ?_, fun h hseg => ?_, fun t h hseg hdec halg => ?_,
    by simp, fun a => by simp⟩
  · simp [jwtService.ValidateToken, h]
  · simp [jwtService.ValidateToken, h, hseg]
  · simp [jwtService.ValidateToken, h, hseg, hdec, halg]

theorem validateToken_rejects_malformed_and_foreign_alg_witness :
    jwtService.ValidateToken hs512Decode "Template" [] = .error .emptyToken ∧
    jwtService.ValidateToken hs512Decode "Template" [46] = .error .badSegments ∧
    jwtService.ValidateToken hs512Decode "Template" hs512Token =
      .error (.badMethod .hs512) := by
  refine ⟨(validateToken_rejects_malformed_and_foreign_alg hs512Decode "Template" []).1 rfl,
    (validateToken_rejects_malformed_and_foreign_alg hs512Decode "Template" [46]).2.1
      (by decide) (by decide),
    (validateToken_rejects_malformed_and_foreign_alg hs512Decode "Template" hs512Token).2.2.1
      hs512Raw (by decide) (by decide) rfl (by decide)⟩

/-! ## Credential/token store and the two auth service generations

`userService.Verify` / `userService.RefreshToken` (the transactional
generation) and `authService.Login` / `authService.RefreshToken` (the
generation with the rotation flag) are embedded over an explicit store
state.  GORM repositories become pure functions on the state; each flow
returns the post-state together with its result.  The transactional
generation begins a transaction and rolls everything back on any error
(`SafeRollback` plus explicit `tx.Rollback()` calls), so its mutations
only reach the returned state on commit; the other generation passes a
`nil` transaction handle to every repository call, so each call commits
on its own and earlier mutations survive later failures.  External
nondeterminism — bcrypt comparison, token generation, and injected
database/commit failures — is supplied through a `TokenGen` environment. -/

/-- User row (`entity.User`), restricted to the fields the embedded flows
read. -/
structure User where
  id : String
  name : String
  email : String
  password : String
  role : String
  isVerified : Bool
  deriving DecidableEq

/-- Refresh token row (`entity.RefreshToken`). -/
structure RefreshTokenRow where
  userID : String
  token : String
  expiresAt : ℤ
  deriving DecidableEq

/-- Database state: the users table and the refresh-tokens table. -/
structure DB where
  users : List User
  refreshTokens : List RefreshTokenRow
  deriving DecidableEq

namespace repository

/-- GetUserByEmail / CheckEmail (`Take` on `email = ?`). -/
def getUserByEmail (db : DB) (email : String) : Option User :=
  db.users.find? (fun u => u.email == email)

/-- GetUserById (`Take` on `id = ?`). -/
def getUserById (db : DB) (id : String) : Option User :=
  db.users.find? (fun u => u.id == id)

/-- FindByToken / GetRefreshToken (`Take`/`First` on `token = ?`). -/
def findByToken (db : DB) (tok : String) : Option RefreshTokenRow :=
  db.refreshTokens.find? (fun r => r.token == tok)

/-- DeleteByUserID / DeleteRefreshTokensByUserID (`Delete` on
`user_id = ?`). -/
def deleteByUserID (db : DB) (uid : String) : DB :=
  { db with refreshTokens := db.refreshTokens.filter (fun r => !(r.userID == uid)) }

/-- DeleteByToken / DeleteRefreshToken (`Delete` on `token = ?`). -/
def deleteByToken (db : DB) (tok : String) : DB :=
  { db with refreshTokens := db.refreshTokens.filter (fun r => !(r.token == tok)) }

/-- Create / CreateRefreshToken (row insert). -/
def createRefreshToken (db : DB) (row : RefreshTokenRow) : DB :=
  { db with refreshTokens := db.refreshTokens ++ [row] }

/-- Whether a token string is already present (the `token` column has a
unique index, so inserting a duplicate fails). -/
def tokenExists (db : DB) (tok : String) : Bool :=
  (findByToken db tok).isSome

end repository

/-- Environment of a single flow invocation: the bcrypt verdict, the
access-token signer, the refresh-token string and expiry drawn by this
call, the new service's `expiresIn`, and injected failures of the
fallible store calls (delete, insert, commit). -/
structure TokenGen where
  bcrypt : String → String → Bool
  genAccess : String → String → String
  newToken : String
  newExpiry : ℤ
  expiresIn : ℤ
  deleteFault : Bool
  createFault : Bool
  commitFault : Bool

/-- Token response of the transactional generation
(`dto.TokenResponse` with `role`). -/
structure TokenResponse where
  accessToken : String
  refreshToken : String
  role : String
  deriving DecidableEq

/-- Token response of the rotation-flag generation
(`dto.TokenResponse` with `expires_in` and `token_type`). -/
structure AuthTokenResponse where
  accessToken : String
  refreshToken : String
  expiresIn : ℤ
  tokenType : String
  deriving DecidableEq

/-- Typed errors of the `dto` package used by `authService`.
`ErrAccountNotVerified` and `ErrPasswordNotMatch` are referenced by the
source but their `errors.New` definitions are not among the sources;
they are distinct error values, and no theorem relies on their message
text.  `storageErr` stands for a propagated repository error. -/
inductive DtoErr where
  | emailNotFound
  | accountNotVerified
  | passwordNotMatch
  | invalidRefreshToken
  | expiredRefreshToken
  | userNotFound
  | storageErr
  deriving DecidableEq

/-- Message texts of the `dto` error values, where defined under the
sources (`errors.New` literals). -/
def dtoErrMessage : DtoErr → Option String
  | .emailNotFound => some "email not found"
  | .invalidRefreshToken => some "invalid refresh token"
  | .expiredRefreshToken => some "refresh token has expired"
  | .userNotFound => some "user not found"
  | _ => none

namespace userService

/-- Verify (the login flow of the transactional generation): begin a
transaction; look up the user by email and check the bcrypt hash, both
failures collapsing to the one literal `invalid email or password`;
generate tokens; delete all of the user's refresh tokens and insert the
new one inside the transaction; commit.  Any failure rolls the
transaction back, so the returned state is the pre-state on every error
path. -/
def Verify (env : TokenGen) (db : DB) (email password : String) :
    DB × Except String TokenResponse :=
  match repository.getUserByEmail db email with
  | none => (db, .error "invalid email or password")
  | some user =>
    if ¬ env.bcrypt user.password password then (db, .error "invalid email or password")
    else
      let accessToken := env.genAccess user.id user.role
      if env.deleteFault then (db, .error "delete failed")
      else
        let db1 := repository.deleteByUserID db user.id
        if env.createFault || repository.tokenExists db1 env.newToken then
          (db, .error "create failed")
        else
          let db2 := repository.createRefreshToken db1 ⟨user.id, env.newToken, env.newExpiry⟩
          if env.commitFault then (db, .error "commit failed")
          else (db2, .ok ⟨accessToken, env.newToken, user.role⟩)

/-- RefreshToken of the transactional generation: find the stored token
(`Invalid refresh token` if absent), reject an expired one with
`Refresh token has expired` — rolling back, deleting nothing — then load
the user and rotate unconditionally: delete all of the user's tokens by
user id and insert a fresh one, inside the transaction.  No rotation
flag is consulted anywhere in this generation. -/
def RefreshToken (env : TokenGen) (db : DB) (refreshToken : String) (now : ℤ) :
    DB × Except String TokenResponse :=
  match repository.findByToken db refreshToken with
  | none => (db, .error "Invalid refresh token")
  | some dbToken =>
    if now > dbToken.expiresAt then (db, .error "Refresh token has expired")
    else
      match repository.getUserById db dbToken.userID with
      | none => (db, .error "user not found")
      | some user =>
        let accessToken := env.genAccess user.id user.role
        if env.deleteFault then (db, .error "delete failed")
        else
          let db1 := repository.deleteByUserID db user.id
          if env.createFault || repository.tokenExists db1 env.newToken then
            (db, .error "create failed")
          else
            let db2 := repository.createRefreshToken db1 ⟨user.id, env.newToken, env.newExpiry⟩
            if env.commitFault then (db, .error "commit failed")
            else (db2, .ok ⟨accessToken, env.newToken, user.role⟩)

end userService

namespace authService

/-- Login of the rotation-flag generation: distinct typed errors for
unknown email (`ErrEmailNotFound`), unverified account
(`ErrAccountNotVerified`) and wrong password (`ErrPasswordNotMatch`);
then, with a `nil` transaction handle throughout, delete the user's old
refresh tokens with the error discarded (`_ =`), and insert the new one
in its own implicit transaction — so a failing insert leaves the
already-committed delete in place. -/
def Login (env : TokenGen) (db : DB) (email password : String) :
    DB × Except DtoErr AuthTokenResponse :=
  match repository.getUserByEmail db email with
  | none => (db, .error .emailNotFound)
  | some user =>
    if ¬ user.isVerified then (db, .error .accountNotVerified)
    else if ¬ env.bcrypt user.password password then (db, .error .passwordNotMatch)
    else
      let accessToken := env.genAccess user.id user.role
      let db1 := if env.deleteFault then db else repository.deleteByUserID db user.id
      if env.createFault || repository.tokenExists db1 env.newToken then
        (db1, .error .storageErr)
      else
        (repository.createRefreshToken db1 ⟨user.id, env.newToken, env.newExpiry⟩,
          .ok ⟨accessToken, env.newToken, env.expiresIn, "Bearer"⟩)

/-- RefreshToken of the rotation-flag generation: find the stored token
(`ErrInvalidRefreshToken` if absent); if expired, delete it (error
discarded) and return `ErrExpiredRefreshToken`; otherwise load the user,
issue a new access token, and — only when the deployment's
`RotateRefreshToken` flag is set — delete exactly the presented token and
insert a fresh one; with the flag clear, return the same token string
without touching the store. -/
def RefreshToken (env : TokenGen) (rotate : Bool) (db : DB) (refreshToken : String) (now : ℤ) :
    DB × Except DtoErr AuthTokenResponse :=
  match repository.findByToken db refreshToken with
  | none => (db, .error .invalidRefreshToken)
  | some storedToken =>
    if now > storedToken.expiresAt then
      let db1 := if env.deleteFault then db else repository.deleteByToken db refreshToken
      (db1, .error .expiredRefreshToken)
    else
      match repository.getUserById db storedToken.userID with
      | none => (db, .error .userNotFound)
      | some user =>
        let accessToken := env.genAccess user.id user.role
        if rotate then
          let db1 := if env.deleteFault then db else repository.deleteByToken db refreshToken
          if env.createFault || repository.tokenExists db1 env.newToken then
            (db1, .error .storageErr)
          else
            (repository.createRefreshToken db1 ⟨user.id, env.newToken, env.newExpiry⟩,
              .ok ⟨accessToken, env.newToken, env.expiresIn, "Bearer"⟩)
        else
          (db, .ok ⟨accessToken, refreshToken, env.expiresIn, "Bearer"⟩)

end authService

/-! ## Store lemmas and fixtures shared by the flow theorems. -/

theorem find?_append_of_none {α : Type} (p : α → Bool) (l1 l2 : List α)
    (h : l1.find? p = none) : (l1 ++ l2).find? p = l2.find? p := by
  induction l1 with
  | nil => rfl
  | cons a t ih =>
    by_cases hp : p a
    · rw [List.find?_cons_of_pos _ hp] at h
      exact absurd h (by simp)
    · rw [List.find?_cons_of_neg _ hp] at h
      rw [List.cons_append, List.find?_cons_of_neg _ hp]
      exact ih h

theorem find?_filter_neg {α : Type} (p : α → Bool) (l : List α) :
    (l.filter (fun a => !(p a))).find? p = none := by
  induction l with
  | nil => rfl
  | cons a t ih =>
    cases hp : p a
    · simp [List.filter_cons, hp, List.find?, ih]
    · simp [List.filter_cons, hp, ih]

theorem findByToken_delete_self (db : DB) (tok : String) :
    repository.findByToken (repository.deleteByToken db tok) tok = none := by
  unfold repository.findByToken repository.deleteByToken
  exact find?_filter_neg (fun r => r.token == tok) db.refreshTokens

theorem findByToken_create_of_ne (db : DB) (row : RefreshTokenRow) (tok : String)
    (hne : ¬ row.token = tok) (hdb : repository.findByToken db tok = none) :
    repository.findByToken (repository.createRefreshToken db row) tok = none := by
  unfold repository.findByToken repository.createRefreshToken
  rw [find?_append_of_none _ _ _ hdb]
  rw [List.find?_cons_of_neg _ (by simp [hne])]
  rfl

theorem findByToken_create_self (db : DB) (row : RefreshTokenRow)
    (hdb : repository.findByToken db row.token = none) :
    repository.findByToken (repository.createRefreshToken db row) row.token = some row := by
  unfold repository.findByToken repository.createRefreshToken
  rw [find?_append_of_none _ _ _ hdb]
  rw [List.find?_cons_of_pos _ (by simp)]

/-- Stored bcrypt hash fixture for the password `secret` under the
environments below. -/
def hashedPw : String := "bcrypt-hash-of-secret"

/-- Fixture user: verified, role `user`. -/
def aliceUser : User := ⟨"u1", "Alice", "alice@example.com", hashedPw, "user", true⟩

/-- Fault-free environment: bcrypt accepts exactly the matching hash, the
signer returns `acc`, the freshly drawn refresh token is `rt-new`. -/
def baseEnv : TokenGen :=
  ⟨fun h p => h == ("bcrypt-hash-of-" ++ p), fun _ _ => "acc", "rt-new", 1000, 900,
    false, false, false⟩

/-- Environment whose refresh-token insert fails (injected DB error). -/
def faultEnv : TokenGen := { baseEnv with createFault := true }

/-- Two live refresh tokens of the fixture user. -/
def rtA : RefreshTokenRow := ⟨"u1", "tokA", 5000⟩

/-- Second live refresh token of the fixture user. -/
def rtB : RefreshTokenRow := ⟨"u1", "tokB", 5000⟩

/-- Store with the user and no refresh tokens. -/
def loginDB : DB := ⟨[aliceUser], []⟩

/-- Store with the user and two refresh tokens. -/
def refreshDB : DB := ⟨[aliceUser], [rtA, rtB]⟩

/-- Store with the user and one refresh token. -/
def singleDB : DB := ⟨[aliceUser], [rtA]⟩

/-- An expired refresh token (expiry 50, observed at `now = 100`). -/
def rtExpired : RefreshTokenRow := ⟨"u1", "tokOld", 50⟩

/-- Store with the user and only the expired token. -/
def expiredDB : DB := ⟨[aliceUser], [rtExpired]⟩

/-- Claim C1 (counterexample) — the claim quantifies over every login
request, but the `authService.Login` flow (also cited by the claim)
distinguishes the two failure modes: an unknown email yields
`ErrEmailNotFound` (message `email not found`) while a known email with a
wrong password yields the distinct `ErrPasswordNotMatch`; neither is the
generic `invalid email or password`. -/
theorem authService_login_distinguishable_errors :
    (authService.Login baseEnv loginDB "unknown@example.com" "pw").2 =
      .error .emailNotFound ∧
    (authService.Login baseEnv loginDB "alice@example.com" "wrongpw").2 =
      .error .passwordNotMatch ∧
    DtoErr.emailNotFound ≠ DtoErr.passwordNotMatch ∧
    dtoErrMessage .emailNotFound = some "email not found" ∧
    ("email not found" : String) ≠ "invalid email or password" := by
  exact ⟨rfl, rfl, by decide, rfl, by decide⟩

/-- Claim C1 (amended) — the enumeration-resistance property holds for the
`userService.Verify` login flow: an unknown email and a known email with a
non-matching password hash both return an error with the byte-identical
message `invalid email or password` (the same string literal in both
branches of the source), leaving the caller unable to distinguish the two
cases there; `authService.Login` does not share this property (see the
counterexample). -/
theorem userService_verify_enumeration_resistant (env : TokenGen) (db : DB)
    (email password : String) :
    (repository.getUserByEmail db email = none →
      (userService.Verify env db email password).2 = .error "invalid email or password") ∧
    (∀ user, repository.getUserByEmail db email = some user →
      env.bcrypt user.password password = false →
      (userService.Verify env db email password).2 = .error "invalid email or password") := by
  constructor
  · intro h
    simp [userService.Verify, h]
  · intro user h hb
    simp [userService.Verify, h, hb]

theorem userService_verify_enumeration_resistant_witness :
    (userService.Verify baseEnv loginDB "unknown@example.com" "pw").2 =
      .error "invalid email or password" ∧
    (userService.Verify baseEnv loginDB "alice@example.com" "wrongpw").2 =
      .error "invalid email or password" := by
  exact ⟨(userService_verify_enumeration_resistant baseEnv loginDB
      "unknown@example.com" "pw").1 rfl,
    (userService_verify_enumeration_resistant baseEnv loginDB
      "alice@example.com" "wrongpw").2 aliceUser rfl (by decide)⟩

/-- Claim C2 (counterexample) — the claim also cites the
`userService.RefreshToken` flow, which consults no rotation flag: on a
store holding the user's tokens `tokA` and `tokB`, refreshing with `tokA`
both mutates the store (so "rotation disabled ⇒ no store mutation" fails,
the flow having no disabled mode) and deletes `tokB` as well (deletion is
by user id, not "exactly t"), returning a fresh token rather than the same
string. -/
theorem userService_refreshToken_ignores_rotation_flag :
    (userService.RefreshToken baseEnv refreshDB "tokA" 100).1 ≠ refreshDB ∧
    (userService.RefreshToken baseEnv refreshDB "tokA" 100).2 =
      .ok ⟨"acc", "rt-new", "user"⟩ ∧
    repository.findByToken (userService.RefreshToken baseEnv refreshDB "tokA" 100).1
      "tokB" = none := by
  exact ⟨by decide, rfl, rfl⟩

/-- Claim C2 (amended) — the described rotation semantics are those of
`authService.RefreshToken`: for a stored, unexpired token `tok` (owner
present, store calls succeeding, fresh replacement token), rotation
enabled deletes exactly `tok` and inserts one new token — `tok` is no
longer findable and the new token is — while rotation disabled returns
the new access token paired with the same string `tok` and leaves the
store untouched.  `userService.RefreshToken` does not satisfy this (see
the counterexample). -/
theorem authService_refreshToken_rotation_semantics (env : TokenGen) (db : DB)
    (tok : String) (now : ℤ) (st : RefreshTokenRow) (user : User)
    (hfind : repository.findByToken db tok = some st)
    (hexp : ¬ now > st.expiresAt)
    (huser : repository.getUserById db st.userID = some user)
    (hdel : env.deleteFault = false)
    (hcre : env.createFault = false)
    (hfresh : repository.tokenExists (repository.deleteByToken db tok) env.newToken = false)
    (hne : ¬ env.newToken = tok) :
    (authService.RefreshToken env true db tok now =
      (repository.createRefreshToken (repository.deleteByToken db tok)
        ⟨user.id, env.newToken, env.newExpiry⟩,
        .ok ⟨env.genAccess user.id user.role, env.newToken, env.expiresIn, "Bearer"⟩)) ∧
    repository.findByToken (authService.RefreshToken env true db tok now).1 tok = none ∧
    repository.findByToken (authService.RefreshToken env true db tok now).1 env.newToken =
      some ⟨user.id, env.newToken, env.newExpiry⟩ ∧
    authService.RefreshToken env false db tok now =
      (db, .ok ⟨env.genAccess user.id user.role, tok, env.expiresIn, "Bearer"⟩) := by
  have hfreshNone : repository.findByToken (repository.deleteByToken db tok) env.newToken
      = none := by
    have := hfresh
    unfold repository.tokenExists at this
    exact Option.not_isSome_iff_eq_none.mp (by simp [this])
  have heq : authService.RefreshToken env true db tok now =
      (repository.createRefreshToken (repository.deleteByToken db tok)
        ⟨user.id, env.newToken, env.newExpiry⟩,
        .ok ⟨env.genAccess user.id user.role, env.newToken, env.expiresIn, "Bearer"⟩) := by
    simp [authService.RefreshToken, hfind, hexp, huser, hdel, hcre, hfresh]
  refine ⟨heq, ?_, ?_, ?_⟩
  · rw [heq]
    exact findByToken_create_of_ne _ _ _ hne (findByToken_delete_self db tok)
  · rw [heq]
    exact findByToken_create_self _ ⟨user.id, env.newToken, env.newExpiry⟩ hfreshNone
  · simp [authService.RefreshToken, hfind, hexp, huser]

theorem authService_refreshToken_rotation_semantics_witness :
    authService.RefreshToken baseEnv true singleDB "tokA" 100 =
      (⟨[aliceUser], [⟨"u1", "rt-new", 1000⟩]⟩,
        .ok ⟨"acc", "rt-new", 900, "Bearer"⟩) ∧
    authService.RefreshToken baseEnv false singleDB "tokA" 100 =
      (singleDB, .ok ⟨"acc", "tokA", 900, "Bearer"⟩) := by
  have h := authService_refreshToken_rotation_semantics baseEnv singleDB "tokA" 100
    rtA aliceUser rfl (by decide) rfl rfl rfl rfl (by decide)
  exact ⟨h.1.trans rfl, h.2.2.2⟩

/-- Claim C3 (counterexample) — the claim also cites
`userService.RefreshToken`, which on an expired stored token returns the
`Refresh token has expired` error after rolling the transaction back:
the expired row is not deleted and remains findable in storage. -/
theorem userService_refreshToken_keeps_expired_row :
    userService.RefreshToken baseEnv expiredDB "tokOld" 100 =
      (expiredDB, .error "Refresh token has expired") ∧
    repository.findByToken expiredDB "tokOld" = some rtExpired := by
  exact ⟨rfl, rfl⟩

/-- Claim C3 (amended) — `authService.RefreshToken` behaves as claimed:
for a stored token whose expiry is in the past (and a delete call that
succeeds; its error is discarded by the source), the call deletes the
stored row and returns `ErrExpiredRefreshToken`, leaving the token no
longer findable.  `userService.RefreshToken` instead returns its expired
error without deleting the row (see the counterexample). -/
theorem authService_refreshToken_deletes_expired (env : TokenGen) (rotate : Bool)
    (db : DB) (tok : String) (now : ℤ) (st : RefreshTokenRow)
    (hfind : repository.findByToken db tok = some st)
    (hexp : now > st.expiresAt)
    (hdel : env.deleteFault = false) :
    authService.RefreshToken env rotate db tok now =
      (repository.deleteByToken db tok, .error .expiredRefreshToken) ∧
    repository.findByToken (repository.deleteByToken db tok) tok = none := by
  constructor
  · simp [authService.RefreshToken, hfind, hexp, hdel]
  · exact findByToken_delete_self db tok

theorem authService_refreshToken_deletes_expired_witness :
    authService.RefreshToken baseEnv true expiredDB "tokOld" 100 =
      (⟨[aliceUser], []⟩, .error .expiredRefreshToken) := by
  have h := authService_refreshToken_deletes_expired baseEnv true expiredDB "tokOld" 100
    rtExpired rfl (by decide) rfl
  exact h.1.trans rfl

/-- Shape of `userService.Verify`: every run either fails leaving the
pre-state untouched, or succeeds with exactly the delete-then-insert
store update for the authenticated user. -/
theorem userService_verify_cases (env : TokenGen) (db : DB) (email password : String) :
    (∃ e, userService.Verify env db email password = (db, .error e)) ∨
    (∃ user, repository.getUserByEmail db email = some user ∧
      userService.Verify env db email password =
        (repository.createRefreshToken (repository.deleteByUserID db user.id)
          ⟨user.id, env.newToken, env.newExpiry⟩,
          .ok ⟨env.genAccess user.id user.role, env.newToken, user.role⟩)) := by
  unfold userService.Verify
  cases hfind : repository.getUserByEmail db email with
  | none => exact .inl ⟨_, rfl⟩
  | some user =>
    dsimp only
    split_ifs with h1 h2 h3 h4 <;>
      first
        | exact .inl ⟨_, rfl⟩
        | exact .inr ⟨user, rfl, rfl⟩

/-- Claim C4 (amended) — the `userService.Verify` login flow is
transactional: whenever any step fails (lookup, password check, token
delete, token insert, or the commit itself), the returned store state is
exactly the pre-call state — never a state with the old tokens deleted
and no new token inserted — and on success the state is precisely
delete-all-then-insert-new for the logged-in user.  `authService.Login`
does not have this property (see the counterexample). -/
theorem userService_verify_transactional_atomicity (env : TokenGen) (db : DB)
    (email password : String) :
    (∀ e, (userService.Verify env db email password).2 = .error e →
      (userService.Verify env db email password).1 = db) ∧
    (∀ user resp, repository.getUserByEmail db email = some user →
      (userService.Verify env db email password).2 = .ok resp →
      (userService.Verify env db email password).1 =
        repository.createRefreshToken (repository.deleteByUserID db user.id)
          ⟨user.id, env.newToken, env.newExpiry⟩) := by
  have hc := userService_verify_cases env db email password
  constructor
  · intro e he
    rcases hc with ⟨e', he'⟩ | ⟨user, _, hok⟩
    · rw [he']
    · rw [hok] at he
      exact absurd he (by simp)
  · intro user resp hu hok
    rcases hc with ⟨e', he'⟩ | ⟨user', hu', hok'⟩
    · rw [he'] at hok
      exact absurd hok (by simp)
    · have huser : user' = user := by
        rw [hu] at hu'
        exact (Option.some.inj hu').symm
      rw [hok', huser]

theorem userService_verify_transactional_atomicity_witness :
    (userService.Verify faultEnv refreshDB "alice@example.com" "secret").2 =
      .error "create failed" ∧
    (userService.Verify faultEnv refreshDB "alice@example.com" "secret").1 = refreshDB := by
  exact ⟨rfl, (userService_verify_transactional_atomicity faultEnv refreshDB
    "alice@example.com" "secret").1 "create failed" rfl⟩

/-- Claim C4 (counterexample) — the claim also cites `authService.Login`,
which passes a `nil` transaction handle to every store call: on a store
holding two refresh tokens for the user, a failing insert of the new
token returns an error while leaving the already-committed delete in
place — the returned state has the old tokens gone and no new token, the
very state the claim says can never be observed. -/
theorem authService_login_partial_token_state :
    authService.Login faultEnv refreshDB "alice@example.com" "secret" =
      (⟨[aliceUser], []⟩, .error .storageErr) ∧
    refreshDB.refreshTokens = [rtA, rtB] ∧
    (⟨[aliceUser], []⟩ : DB).refreshTokens = [] := by
  exact ⟨rfl, rfl, rfl⟩

/-! ## Email verification (`makeVerificationEmail` / `userService.VerifyEmail`)

The verification token is `AESEncrypt(email + "_" + expiry)` with the
expiry formatted in the Go layout `2006-01-02 15:04:05`; `VerifyEmail`
decrypts, splits the plaintext on every underscore, takes fragment 0 as
the email and fragment 1 as the expiry, parses the latter, and only then
compares times and looks the user up.  Times are a plain calendar
record; parsing is modelled with the layout's shape checks (digits at the
digit positions, `-`, space and `:` at the separator positions, fields in
range), which is all the claims rely on. -/

/-- Calendar time, as read from / written to the fixed layout. -/
structure DateTime where
  year : ℕ
  month : ℕ
  day : ℕ
  hour : ℕ
  minute : ℕ
  second : ℕ
  deriving DecidableEq

/-- Two-digit zero-padded decimal field. -/
def pad2 (n : ℕ) : GoStr := [48 + n / 10 % 10, 48 + n % 10]

/-- Four-digit zero-padded decimal field. -/
def pad4 (n : ℕ) : GoStr :=
  [48 + n / 1000 % 10, 48 + n / 100 % 10, 48 + n / 10 % 10, 48 + n % 10]

/-- Go `t.Format("2006-01-02 15:04:05")`. -/
def formatDateTime (d : DateTime) : GoStr :=
  pad4 d.year ++ [45] ++ pad2 d.month ++ [45] ++ pad2 d.day ++ [32] ++
    pad2 d.hour ++ [58] ++ pad2 d.minute ++ [58] ++ pad2 d.second

/-- Decimal digit byte value. -/
def digitVal (c : ℕ) : Option ℕ :=
  if 48 ≤ c ∧ c ≤ 57 then some (c - 48) else none

/-- Two-digit decimal field parse. -/
def parse2 (c1 c2 : ℕ) : Option ℕ :=
  match digitVal c1, digitVal c2 with
  | some a, some b => some (10 * a + b)
  | _, _ => none

/-- Go `time.Parse("2006-01-02 15:04:05", s)`: the input must be exactly
19 bytes with digits and separators in the layout's positions and fields
in calendar range; anything else is a parse error (`none`). -/
def timeParse (s : GoStr) : Option DateTime :=
  if s.length = 19 then
    if s.getD 4 0 = 45 ∧ s.getD 7 0 = 45 ∧ s.getD 10 0 = 32 ∧
        s.getD 13 0 = 58 ∧ s.getD 16 0 = 58 then
      match digitVal (s.getD 0 0), digitVal (s.getD 1 0), digitVal (s.getD 2 0),
          digitVal (s.getD 3 0), parse2 (s.getD 5 0) (s.getD 6 0),
          parse2 (s.getD 8 0) (s.getD 9 0), parse2 (s.getD 11 0) (s.getD 12 0),
          parse2 (s.getD 14 0) (s.getD 15 0), parse2 (s.getD 17 0) (s.getD 18 0) with
      | some a, some b, some c, some d, some mo, some da, some ho, some mi, some se =>
        if 1 ≤ mo ∧ mo ≤ 12 ∧ 1 ≤ da ∧ da ≤ 31 ∧ ho ≤ 23 ∧ mi ≤ 59 ∧ se ≤ 59 then
          some ⟨1000 * a + 100 * b + 10 * c + d, mo, da, ho, mi, se⟩
        else none
      | _, _, _, _, _, _, _, _, _ => none
    else none
  else none

/-- Monotone linearisation of calendar time, for the expiry comparison
`expiredTime.Sub(now) < 0`. -/
def DateTime.key (d : DateTime) : ℕ :=
  ((((d.year * 13 + d.month) * 32 + d.day) * 24 + d.hour) * 60 + d.minute) * 60 + d.second

/-- User row as read by the verification flow (email is compared at byte
level against the token's fragment). -/
structure UserV where
  email : GoStr
  isVerified : Bool
  deriving DecidableEq

/-- Response carried by `VerifyEmail`. -/
structure VerifyEmailResponse where
  email : GoStr
  isVerified : Bool
  deriving DecidableEq

/-- Error values of the verification flow (`dto` package). -/
inductive UserErr where
  | tokenInvalid
  | tokenExpired
  | userNotFound
  | accountAlreadyVerified
  | updateUser
  deriving DecidableEq

/-- Result of `VerifyEmail`: success, plain error, or — only in the
expired-token case — a populated partial response alongside the error, as
the source returns both values there. -/
inductive VerifyEmailResult where
  | ok (resp : VerifyEmailResponse)
  | errWith (resp : VerifyEmailResponse) (e : UserErr)
  | err (e : UserErr)
  deriving DecidableEq

/-- Core of `makeVerificationEmail`: the token embedded in the
verification link — `AESEncrypt(receiverEmail + "_" + expired)` where
`expired` is `time.Now().Add(24h)` formatted in the fixed layout (the
expiry instant is the `expiry` parameter here).  Template rendering and
mail dispatch are outside the token and omitted. -/
def makeVerificationEmailToken (g : GCM) (nonce : GoStr) (receiverEmail : GoStr)
    (expiry : DateTime) : Except String GoStr :=
  AESEncrypt g nonce (receiverEmail ++ 95 :: formatDateTime expiry)

namespace userService

/-- VerifyEmail: decrypt (`ErrTokenInvalid` on failure), require an
underscore, split on every underscore taking fragment 0 as the email and
fragment 1 as the expiry, parse the expiry (`ErrTokenInvalid` on parse
failure), reject a past expiry with `ErrTokenExpired` plus a partial
response, look the user up (`ErrUserNotFound`), reject an already
verified account (`ErrAccountAlreadyVerified`), and otherwise persist
`isVerified = true` (`ErrUpdateUser` when that update fails —
`updateFault` injects such a store failure). -/
def VerifyEmail (g : GCM) (updateFault : Bool) (users : List UserV) (token : GoStr)
    (now : DateTime) : List UserV × VerifyEmailResult :=
  match AESDecrypt g token with
  | .error _ => (users, .err .tokenInvalid)
  | .ok decryptedToken =>
    if 95 ∈ decryptedToken then
      let parts := splitOnByte 95 decryptedToken
      let email := parts.getD 0 []
      let expired := parts.getD 1 []
      match timeParse expired with
      | none => (users, .err .tokenInvalid)
      | some expiredTime =>
        if DateTime.key expiredTime < DateTime.key now then
          (users, .errWith ⟨email, false⟩ .tokenExpired)
        else
          match users.find? (fun u => u.email == email) with
          | none => (users, .err .userNotFound)
          | some user =>
            if user.isVerified then (users, .err .accountAlreadyVerified)
            else if updateFault then (users, .err .updateUser)
            else
              (users.map (fun u => if u.email == email then ⟨u.email, true⟩ else u),
                .ok ⟨email, true⟩)
    else (users, .err .tokenInvalid)

end userService

theorem splitOnByte_nil (sep : ℕ) : splitOnByte sep [] = [[]] := rfl

theorem splitOnByte_cons (sep a : ℕ) (t : GoStr) :
    splitOnByte sep (a :: t) =
      if a = sep then [] :: splitOnByte sep t
      else
        match splitOnByte sep t with
        | h :: r => (a :: h) :: r
        | [] => [[a]] := rfl

theorem splitOnByte_ne_nil (sep : ℕ) (l : GoStr) : splitOnByte sep l ≠ [] := by
  induction l with
  | nil => simp [splitOnByte_nil]
  | cons a t ih =>
    rw [splitOnByte_cons]
    by_cases ha : a = sep
    · simp [ha]
    · rw [if_neg ha]
      obtain ⟨h0, t0, heq⟩ := List.exists_cons_of_ne_nil ih
      rw [heq]
      simp

theorem splitOnByte_append_sep (sep : ℕ) (a b : GoStr) :
    splitOnByte sep (a ++ sep :: b) = splitOnByte sep a ++ splitOnByte sep b := by
  induction a with
  | nil =>
    rw [List.nil_append, splitOnByte_cons, if_pos rfl, splitOnByte_nil]
    rfl
  | cons c t ih =>
    rw [List.cons_append, splitOnByte_cons, splitOnByte_cons, ih]
    by_cases hc : c = sep
    · rw [if_pos hc, if_pos hc]
      rfl
    · rw [if_neg hc, if_neg hc]
      obtain ⟨h0, t0, heq⟩ := List.exists_cons_of_ne_nil (splitOnByte_ne_nil sep t)
      rw [heq]
      rfl

theorem mem_of_mem_splitOnByte (sep : ℕ) (l : GoStr) (c : ℕ) :
    ∀ part ∈ splitOnByte sep l, c ∈ part → c ∈ l := by
  induction l with
  | nil =>
    intro part hp hc
    rw [splitOnByte_nil] at hp
    simp only [List.mem_singleton] at hp
    subst hp
    simp at hc
  | cons a t ih =>
    intro part hp hc
    rw [splitOnByte_cons] at hp
    by_cases ha : a = sep
    · rw [if_pos ha] at hp
      rcases List.mem_cons.mp hp with h | h
      · subst h
        simp at hc
      · exact List.mem_cons_of_mem a (ih part h hc)
    · rw [if_neg ha] at hp
      obtain ⟨h0, t0, heq⟩ := List.exists_cons_of_ne_nil (splitOnByte_ne_nil sep t)
      rw [heq] at hp
      have hh0 : h0 ∈ splitOnByte sep t := by
        rw [heq]
        exact List.mem_cons_self h0 t0
      rcases List.mem_cons.mp hp with h | h
      · subst h
        rcases List.mem_cons.mp hc with h' | h'
        · subst h'
          exact List.mem_cons_self c t
        · exact List.mem_cons_of_mem a (ih h0 hh0 h')
      · refine List.mem_cons_of_mem a (ih part ?_ hc)
        rw [heq]
        exact List.mem_cons_of_mem h0 h

theorem two_le_splitOnByte_length (sep : ℕ) (l : GoStr) (h : sep ∈ l) :
    2 ≤ (splitOnByte sep l).length := by
  induction l with
  | nil => simp at h
  | cons a t ih =>
    rw [splitOnByte_cons]
    by_cases ha : a = sep
    · rw [if_pos ha]
      have h1 : 0 < (splitOnByte sep t).length :=
        List.length_pos.mpr (splitOnByte_ne_nil sep t)
      simp only [List.length_cons]
      omega
    · rw [if_neg ha]
      have ht : sep ∈ t := by
        rcases List.mem_cons.mp h with h' | h'
        · exact absurd h'.symm ha
        · exact h'
      obtain ⟨h0, t0, heq⟩ := List.exists_cons_of_ne_nil (splitOnByte_ne_nil sep t)
      have h2 := ih ht
      rw [heq] at h2
      rw [heq]
      show 2 ≤ ((a :: h0) :: t0).length
      simp only [List.length_cons] at h2 ⊢
      omega

theorem timeParse_eq_none_of_no_space (s : GoStr) (h32 : 32 ∉ s) :
    timeParse s = none := by
  unfold timeParse
  by_cases hlen : s.length = 19
  · rw [if_pos hlen]
    have h10 : s.getD 10 0 ∈ s := by
      rw [List.getD_eq_getElem s 0 (by omega)]
      exact List.getElem_mem _
    have hne : ¬ s.getD 10 0 = 32 := fun he => h32 (he ▸ h10)
    rw [if_neg (by tauto)]
  · rw [if_neg hlen]

/-- Claim C10 — for every email containing an underscore (and, like all
email addresses, no space byte), the verification token built for it is
rejected by `VerifyEmail` with `ErrTokenInvalid` even though decryption
succeeds (the AEAD hypotheses) and the embedded expiry may lie arbitrarily
far in the future: the decrypted `email_expiry` payload is split on every
underscore and fragment 1 — a fragment of the email itself, not the
timestamp — is handed to the time parser, which fails on it. -/
theorem verifyEmail_rejects_underscore_email (g : GCM) (nonce email : GoStr)
    (expiry : DateTime) (users : List UserV) (now : DateTime) (updateFault : Bool)
    (hnonce : nonce.length = gcmNonceSize)
    (hbytes : ∀ b ∈ nonce ++ g.sealAEAD nonce (email ++ 95 :: formatDateTime expiry), b < 256)
    (hopen : g.openAEAD nonce (g.sealAEAD nonce (email ++ 95 :: formatDateTime expiry)) =
      some (email ++ 95 :: formatDateTime expiry))
    (h95 : 95 ∈ email) (h32 : 32 ∉ email) :
    ∀ tok, makeVerificationEmailToken g nonce email expiry = .ok tok →
      (userService.VerifyEmail g updateFault users tok now).2 = .err .tokenInvalid := by
  intro tok htok
  have htok' : tok =
      hexEncode (nonce ++ g.sealAEAD nonce (email ++ 95 :: formatDateTime expiry)) := by
    have := htok
    simp [makeVerificationEmailToken, AESEncrypt, hexDecode_KEY, aesKeyLengths] at this
    exact this.symm
  subst htok'
  have hdec := aesDecrypt_of_sealed g nonce (email ++ 95 :: formatDateTime expiry)
    hnonce hbytes hopen
  have hsplit : splitOnByte 95 (email ++ 95 :: formatDateTime expiry) =
      splitOnByte 95 email ++ splitOnByte 95 (formatDateTime expiry) :=
    splitOnByte_append_sep 95 email (formatDateTime expiry)
  have h2 : 2 ≤ (splitOnByte 95 email).length := two_le_splitOnByte_length 95 email h95
  have hfrag : (splitOnByte 95 (email ++ 95 :: formatDateTime expiry)).getD 1 [] =
      (splitOnByte 95 email).getD 1 [] := by
    rw [hsplit]
    exact List.getD_append _ _ _ _ (by omega)
  have hfragmem : (splitOnByte 95 email).getD 1 [] ∈ splitOnByte 95 email := by
    rw [List.getD_eq_getElem _ _ (by omega)]
    exact List.getElem_mem _
  have hfrag32 : 32 ∉ (splitOnByte 95 email).getD 1 [] := fun hc =>
    h32 (mem_of_mem_splitOnByte 95 email 32 _ hfragmem hc)
  have hparse :
      timeParse ((splitOnByte 95 (email ++ 95 :: formatDateTime expiry)).getD 1 []) = none := by
    rw [hfrag]
    exact timeParse_eq_none_of_no_space _ hfrag32
  have hmem : (95 : ℕ) ∈ email ++ 95 :: formatDateTime expiry := by
    simp
  simp only [List.getD, List.get?_eq_getElem?] at hparse
  simp [userService.VerifyEmail, hdec, hmem, hparse]

/-- Fixture: the bytes of `john_doe@x.io`. -/
def emailFixture : GoStr := [106, 111, 104, 110, 95, 100, 111, 101, 64, 120, 46, 105, 111]

/-- Fixture expiry instant (in the future of `nowFixture`). -/
def expiryFixture : DateTime := ⟨2026, 10, 12, 8, 0, 0⟩

/-- Fixture observation instant. -/
def nowFixture : DateTime := ⟨2026, 10, 11, 0, 0, 0⟩

/-- Verification token the fixture email receives under the identity
AEAD and an all-zero nonce. -/
def underscoreTokenFixture : GoStr :=
  hexEncode (List.replicate 12 0 ++ (emailFixture ++ 95 :: formatDateTime expiryFixture))

theorem verifyEmail_rejects_underscore_email_witness :
    (userService.VerifyEmail idGCM false [] underscoreTokenFixture nowFixture).2 =
      .err .tokenInvalid := by
  refine verifyEmail_rejects_underscore_email idGCM (List.replicate 12 0) emailFixture
    expiryFixture [] nowFixture false (by decide) (by decide) rfl (by decide) (by decide)
    underscoreTokenFixture rfl
